import Mathlib

set_option maxRecDepth 20000
set_option maxHeartbeats 1600000

/-!
Verification development for the thinc transcoder (src/thinc.py): a
bidirectional syntactic transcoder between brace-form ("B-form") and
indentation-form ("I-form") C/C++-like source.  Every definition below is a
shallow embedding of the corresponding Python function, working on explicit
character lists (`Str`), with `Option` modelling Python exceptions
(IndexError / UnboundLocalError).  Python `dict`s keyed by numbers are
modelled as insertion-ordered association lists with replace-on-collision;
the fractional keys `n + k/1024` of `merge_comments` are modelled exactly by
scaling every key by 1024 (the Python floats `k/1024` are exact binary
fractions, so the scaling is faithful).
-/

namespace Thinc

/-- Characters of one source line; the embedding mirrors Python string
indexing on explicit character lists. -/
abbrev Str := List Char

/-- Fixed indent width (`IND_AMT = 4` in the source). -/
def IND_AMT : Nat := 4

/-- The character `\x7b` (opening curly brace). -/
def lbrace : Char := Char.ofNat 123

/-- The character `\x7d` (closing curly brace). -/
def rbrace : Char := Char.ofNat 125

/-- Python `str.strip()`: drop whitespace from both ends. -/
def stripL (s : Str) : Str :=
  ((s.dropWhile Char.isWhitespace).reverse.dropWhile Char.isWhitespace).reverse

/-- Apply a function to the last element of a list (Python `xs[-1] = ...`
on a list known to be non-empty; identity on `[]`). -/
def modLast (f : α → α) : List α → List α
  | [] => []
  | [a] => [f a]
  | a :: rest => a :: modLast f rest

/-- Python `str.splitlines()` for the line terminators `\n`, `\r\n`, `\r`. -/
def splitlinesGo : Str → Str → List Str
  | [], acc => if acc = [] then [] else [acc.reverse]
  | '\n' :: rest, acc => acc.reverse :: splitlinesGo rest []
  | '\r' :: '\n' :: rest, acc => acc.reverse :: splitlinesGo rest []
  | '\r' :: rest, acc => acc.reverse :: splitlinesGo rest []
  | c :: rest, acc => splitlinesGo rest (c :: acc)

/-- Split a raw source string into lines, Python `splitlines` style (no
trailing empty line for a terminal newline). -/
def splitlinesL (s : Str) : List Str := splitlinesGo s []

/-- Python `s.split(sep)` for a one-character separator. -/
def splitOnChar (s : Str) (sep : Char) : List Str :=
  match s with
  | [] => [[]]
  | c :: rest =>
    let r := splitOnChar rest sep
    if c = sep then [] :: r
    else match r with
      | [] => [[c]]
      | h :: t => (c :: h) :: t

/-- Python `s.split(sep)` for the two-character separator `", "`. -/
def splitOnCommaSpace (s : Str) : List Str :=
  match s with
  | [] => [[]]
  | ',' :: ' ' :: rest =>
    [] :: splitOnCommaSpace rest
  | c :: rest =>
    match splitOnCommaSpace rest with
    | [] => [[c]]
    | h :: t => (c :: h) :: t

/-- Python `", ".join(xs)`. -/
def joinCommaSpace (xs : List Str) : Str := List.intercalate [',', ' '] xs

/-- Python `"\n".join(xs)`. -/
def joinNL (xs : List Str) : Str := List.intercalate ['\n'] xs

/-!
Lexical splitter (`parse_raw_code`): separates code, block comments and line
comments, walking each non-blank raw line character by character.
-/

/-- State of the lexical splitter that persists across raw lines. -/
structure PRState where
  isBlockComment : Bool
  isQuotesOpen : Bool
  out_code : List (Int × Str)
  bcoms : List (Int × List Str)
  coms : List (Int × Str)
deriving Repr

/-- One character step of `parse_raw_code`'s inner loop.  The extra
components carry the per-line flag `isComment` and the previous character
`cm1` (reset to `'\n'` at each line start, exactly as in the source). -/
def prChar (nL : Int) (x : PRState × Bool × Char) (c : Char) : PRState × Bool × Char :=
  let st := x.1
  let isComment := x.2.1
  let cm1 := x.2.2
  -- append the character to exactly one of the three streams
  let st :=
    if isComment then
      { st with coms := modLast (fun p => (p.1, p.2 ++ [c])) st.coms }
    else if st.isBlockComment then
      { st with bcoms := modLast (fun p => (p.1, modLast (fun l => l ++ [c]) p.2)) st.bcoms }
    else
      { st with out_code := modLast (fun p => (p.1, p.2 ++ [c])) st.out_code }
  let isEscaped := cm1 == '\\'
  let st :=
    if c == '"' && !(isComment || st.isBlockComment || isEscaped) then
      { st with isQuotesOpen := !st.isQuotesOpen }
    else st
  -- begin a line comment on `//`
  let (st, isComment) :=
    if cm1 == '/' && c == '/' && !(st.isQuotesOpen || isComment || st.isBlockComment) then
      ({ st with
          out_code := modLast (fun p => (p.1, p.2.take (p.2.length - 2))) st.out_code
          coms := st.coms ++ [(nL, ['/', '/'])] }, true)
    else (st, isComment)
  -- begin a block comment on `/*`
  let st :=
    if cm1 == '/' && c == '*' && !(st.isQuotesOpen || isComment || st.isBlockComment) then
      let st := { st with
        out_code := modLast (fun p => (p.1, p.2.take (p.2.length - 2))) st.out_code
        isBlockComment := true }
      match st.bcoms.getLast? with
      | none => { st with bcoms := st.bcoms ++ [(nL, [['/', '*']])] }
      | some last =>
        if last.1 != nL then { st with bcoms := st.bcoms ++ [(nL, [['/', '*']])] }
        else { st with bcoms := modLast (fun p => (p.1, modLast (fun l => l ++ ['/', '*']) p.2)) st.bcoms }
    else st
  -- end a block comment on `*/`
  let st :=
    if cm1 == '*' && c == '/' && !(st.isQuotesOpen || isComment) then
      { st with isBlockComment := false }
    else st
  (st, isComment, c)

/-- One raw line of `parse_raw_code`'s outer loop. -/
def prLine (st : PRState) (nl : Int × Str) : PRState :=
  let nL := nl.1
  let line := nl.2
  if stripL line = [] then st
  else
    let st :=
      match st.out_code.getLast? with
      | none => { st with out_code := st.out_code ++ [(nL, [])] }
      | some p =>
        if p.2 ≠ [] then { st with out_code := st.out_code ++ [(nL, [])] }
        else { st with out_code := modLast (fun q => (nL, q.2)) st.out_code }
    let st :=
      if st.isBlockComment then
        { st with bcoms := modLast (fun p => (p.1, p.2 ++ [[]])) st.bcoms }
      else st
    (line.foldl (prChar nL) (st, false, '\n')).1

/-- Leading tab expansion: one `\t` becomes `IND_AMT` spaces (the post-pass
of `parse_raw_code`, regex
`^([ \t]*)(([^ \t]{1})|([^ \t]{1}.*[^ \t]{1}))([ \t]*)$`, keeps the leading
whitespace as group 1 with tabs replaced and the trimmed body as group 2). -/
def expandTabs (lead : Str) : Str :=
  lead.flatMap (fun c => if c = '\t' then List.replicate IND_AMT ' ' else [c])

/-- The lexical splitter `parse_raw_code`: returns the code stream, the
block-comment stream and the line-comment stream. -/
def parse_raw_code (lines : List Str) :
    List (Int × Str) × List (Int × List Str) × List (Int × Str) :=
  let st0 : PRState :=
    { isBlockComment := false, isQuotesOpen := false, out_code := [], bcoms := [], coms := [] }
  let st := (lines.enum.map (fun p => ((p.1 : Int), p.2))).foldl prLine st0
  let out2 := st.out_code.filterMap (fun p =>
    let isST := fun c => c = ' ' ∨ c = '\t'
    let lead := p.2.takeWhile isST
    let rest := p.2.drop lead.length
    let mid := (rest.reverse.dropWhile isST).reverse
    if mid = [] then none else some (p.1, expandTabs lead ++ mid))
  (out2, st.bcoms, st.coms)

/-!
Direction detector (`isCurly`).
-/

/-- One line of `isCurly`'s counting loop over
(semicolon-count, colon-count, code-line-count). -/
def icStep (p : Nat × Nat × Nat) (l : Int × Str) : Nat × Nat × Nat :=
  if l.2 ≠ [] then
    if l.2.getLast? = some ';' then (p.1 + 1, p.2.1, p.2.2 + 1)
    else if l.2.getLast? = some ':' then (p.1, p.2.1 + 1, p.2.2 + 1)
    else (p.1, p.2.1, p.2.2 + 1)
  else p

/-- The direction detector `isCurly`: scan at most the first
`min 50000 code.length` lines, counting non-empty lines ending in `;`
versus `:`; the input is declared B-form iff the former strictly wins. -/
def isCurly (code : List (Int × Str)) : Bool :=
  let maxLines := min 50000 code.length
  let cnt := (code.take maxLines).foldl icStep (0, 0, 0)
  decide (cnt.2.1 < cnt.1)

/-- A non-empty line whose last character is `;`. -/
def endsSemi (l : Int × Str) : Bool := !l.2.isEmpty && l.2.getLast? == some ';'

/-- A non-empty line whose last character is `:`. -/
def endsColon (l : Int × Str) : Bool := !l.2.isEmpty && l.2.getLast? == some ':'

/-!
Tree-formatted source code: rose trees `[line_number, code, nested_code]`.
A `none` line number models Python `None` (synthesized nodes).
-/

mutual

/-- A node of the tree-formatted source code. -/
inductive Tree where
  | mk (ln : Option Int) (tx : Str) (ch : TreeL)
deriving Repr, DecidableEq

/-- A forest of tree nodes (the `nested_code` lists); a separate inductive
so that all tree recursions are structural and kernel-reducible. -/
inductive TreeL where
  | nil
  | cons (t : Tree) (ts : TreeL)
deriving Repr, DecidableEq

end

/-- Line number of a tree node. -/
def Tree.ln : Tree → Option Int
  | .mk l _ _ => l

/-- Text of a tree node. -/
def Tree.tx : Tree → Str
  | .mk _ t _ => t

/-- Children of a tree node. -/
def Tree.ch : Tree → TreeL
  | .mk _ _ c => c

/-- Forest concatenation (Python list `+`). -/
def TreeL.append : TreeL → TreeL → TreeL
  | .nil, b => b
  | .cons t ts, b => .cons t (TreeL.append ts b)

instance : Append TreeL := ⟨TreeL.append⟩

/-- Python truthiness test of a forest. -/
def TreeL.isEmpty : TreeL → Bool
  | .nil => true
  | .cons _ _ => false

/-- Last node of a forest (`data_r[-1]`). -/
def TreeL.getLast? : TreeL → Option Tree
  | .nil => none
  | .cons t .nil => some t
  | .cons _ (.cons u ts) => TreeL.getLast? (.cons u ts)

/-- A forest without its last node. -/
def TreeL.dropLast : TreeL → TreeL
  | .nil => .nil
  | .cons _ .nil => .nil
  | .cons t (.cons u ts) => .cons t (TreeL.dropLast (.cons u ts))

/-- Replace the last node of a forest (in-place mutation of `out[-1]`). -/
def TreeL.modLast (f : Tree → Tree) : TreeL → TreeL
  | .nil => .nil
  | .cons t .nil => .cons (f t) .nil
  | .cons t (.cons u ts) => .cons t (TreeL.modLast f (.cons u ts))

/-!
Decidable matchers for the regular expressions of the source.  All strings
reaching them come from `splitlines`, so they contain no newline; each
matcher is the exact extension of its regex on newline-free strings.
-/

/-- Identifier start `[a-zA-Z_]`. -/
def isIdentStart (c : Char) : Bool := c.isAlpha || c == '_'

/-- Identifier character `[a-zA-Z0-9_]`. -/
def isIdentChar (c : Char) : Bool := c.isAlphanum || c == '_'

/-- Matcher for `(public|private|protected)( *):` anchored on both sides,
applied after the optional `^( *)` prefix has been dropped. -/
def accessCore (t : Str) : Bool :=
  ["public", "private", "protected"].any (fun kw =>
    kw.data.isPrefixOf t && (t.drop kw.length).dropWhile (fun c => c == ' ') == [':'])

/-- Matcher for the tail of `case( .*|'.'|)|default *` followed by `:$`,
given the remainder after the keyword `case`. -/
def caseTail (r : Str) : Bool :=
  r == [':'] ||
  (match r with
   | ' ' :: rest => rest.getLast? == some ':'
   | _ => false) ||
  (match r with
   | '\'' :: _ :: '\'' :: [':'] => true
   | _ => false)

/-- Matcher for `(case( .*|'.'|)|default *):` anchored on both sides
(after the optional leading-space group). -/
def switchCore (t : Str) : Bool :=
  ("case".data.isPrefixOf t && caseTail (t.drop 4)) ||
  ("default".data.isPrefixOf t && (t.drop 7).dropWhile (fun c => c == ' ') == [':'])

/-- The regex `^(public|private|protected)( *):$` (tree-level form). -/
def accessModifier (s : Str) : Bool := accessCore s

/-- The regex `^(case( .*|'.'|)|default *):$` (tree-level form). -/
def switchLabel (s : Str) : Bool := switchCore s

/-- The regex `^( *)(public|private|protected)( *):$` used by the B-form
parser on the raw buffer. -/
def accessModifierRaw (s : Str) : Bool := accessCore (s.dropWhile (fun c => c == ' '))

/-- The regex `^( *)(case( .*|'.'|)|default *):$` used by the B-form parser
on the raw buffer. -/
def switchRaw (s : Str) : Bool := switchCore (s.dropWhile (fun c => c == ' '))

/-- The regex `^(class|struct|typedef|enum|union)( [^;]*|)$`
(`re_class_curly` of `to_indented_aliases`). -/
def classCurly (s : Str) : Bool :=
  ["class", "struct", "typedef", "enum", "union"].any (fun kw =>
    kw.data.isPrefixOf s &&
    (let r := s.drop kw.length
     r == [] || (r.head? == some ' ' && !r.contains ';')))

/-- The regex `^(class|struct|typedef|enum|union)( [^;]*|,[^;]*|)$`
(`re_class_indented` of `to_curly_aliases`). -/
def classIndented (s : Str) : Bool :=
  ["class", "struct", "typedef", "enum", "union"].any (fun kw =>
    kw.data.isPrefixOf s &&
    (let r := s.drop kw.length
     r == [] || ((r.head? == some ' ' || r.head? == some ',') && !r.contains ';')))

/-- The regex `^enum( .*|,.*|)$` (`re_enum` of `add_semicolon`). -/
def reEnum (s : Str) : Bool :=
  "enum".data.isPrefixOf s &&
  (let r := s.drop 4
   r == [] || r.head? == some ' ' || r.head? == some ',')

/-- The regex `^#.*$` (`re_macro` of `add_semicolon`). -/
def reMacro (s : Str) : Bool := s.head? == some '#'

/-- The regex `^(while *\(.+\))(;)$` (`re_while` of `to_indented_do_while`),
returning group 1 on a match. -/
def whileSemi (s : Str) : Option Str :=
  if "while".data.isPrefixOf s then
    let r := (s.drop 5).dropWhile (fun c => c == ' ')
    match r with
    | '(' :: rr =>
      if rr.getLast? == some ';' && rr.dropLast.getLast? == some ')' && rr.dropLast.dropLast ≠ [] then
        some s.dropLast
      else none
    | _ => none
  else none

/-- The regex `^(do) (while *\(.+\))$` (`re_do_while` of
`to_curly_do_while`), returning `(group 1, group 2)` on a match. -/
def doWhileMatch (s : Str) : Option (Str × Str) :=
  match s with
  | 'd' :: 'o' :: ' ' :: w =>
    if "while".data.isPrefixOf w then
      let r := (w.drop 5).dropWhile (fun c => c == ' ')
      match r with
      | '(' :: rr =>
        if rr.getLast? == some ')' && rr.dropLast ≠ [] then some (['d', 'o'], w)
        else none
      | _ => none
    else none
  | _ => none

/-- The regex `^([a-zA-Z_]{1}[a-zA-Z0-9_]* *(,[a-zA-Z0-9_ ,]+|);|;)` used by
`cosmetic_lines` (an unanchored `re.search`, so only a prefix of the text
has to match). -/
def aliasSearch (s : Str) : Bool :=
  match s with
  | [] => false
  | ';' :: _ => true
  | c :: rest =>
    if isIdentStart c then
      let t1 := rest.dropWhile isIdentChar
      let t2 := t1.dropWhile (fun ch => ch == ' ')
      match t2 with
      | ';' :: _ => true
      | ',' :: r2 =>
        let k := r2.takeWhile (fun ch => isIdentChar ch || ch == ' ' || ch == ',')
        k ≠ [] && (r2.drop k.length).head? == some ';'
      | _ => false
    else false

/-!
I-form parser (`nest_indented`).
-/

/-- Append a node at nesting depth `d`, descending through last children
(`data_r = data_r[-1]` twice per level); `none` models the IndexError on an
empty list. -/
def appendAt (ts : TreeL) (d : Nat) (t : Tree) : Option TreeL :=
  match d with
  | 0 => some (ts ++ TreeL.cons t .nil)
  | Nat.succ k =>
    match ts.getLast? with
    | none => none
    | some (.mk l tx ch) =>
      (appendAt ch k t).map (fun ch2 => ts.dropLast ++ TreeL.cons (.mk l tx ch2) .nil)

/-- Replace the text of the last node at nesting depth `d` by
`text.dropLast ++ cs` (the line-continuation update
`data_r[-1][-2] = data_r[-1][-2][:-1] + char_space`). -/
def contTextAt (ts : TreeL) (d : Nat) (cs : Str) : Option TreeL :=
  match d with
  | 0 =>
    match ts.getLast? with
    | none => none
    | some (.mk l tx ch) =>
      some (ts.dropLast ++ TreeL.cons (.mk l (tx.dropLast ++ cs) ch) .nil)
  | Nat.succ k =>
    match ts.getLast? with
    | none => none
    | some (.mk l tx ch) =>
      (contTextAt ch k cs).map (fun ch2 => ts.dropLast ++ TreeL.cons (.mk l tx ch2) .nil)

/-- One line of `nest_indented`'s loop; the state is
(tree so far, line-continuation flag, previous indent level `nIp`). -/
def niLine (acc : Option (TreeL × Bool × Nat)) (nl : Int × Str) : Option (TreeL × Bool × Nat) := do
  let (data, lineCont, nIp) ← acc
  let ws := nl.2.takeWhile Char.isWhitespace
  let cs0 := nl.2.drop ws.length
  let (cs, nI) :=
    if lineCont then
      let lws := if nIp = 0 then [] else ws.take (ws.length - nIp * IND_AMT)
      (lws ++ cs0, nIp)
    else (cs0, ws.length / IND_AMT)
  let data ←
    if lineCont then contTextAt data nI cs
    else appendAt data nI (.mk (some nl.1) cs .nil)
  match cs.getLast? with
  | none => none
  | some c => pure (data, c == '\\', nI)

/-- The I-form parser `nest_indented`: convert indented code into the
nested tree structure; `none` models an IndexError (e.g. an over-indented
line descending into a missing child). -/
def nest_indented (code : List (Int × Str)) : Option TreeL :=
  (code.foldl niLine (some (.nil, false, 0))).map (fun p => p.1)

/-!
B-form parser (`nest_curly`).
-/

/-- The scan state of `nest_curly` that survives between characters and
lines: previous character `c` (Python starts it as the empty string,
modelled by `none`), nesting amount `nI` (may go negative on over-closing),
the text buffer, the tree built so far, and the parenthesis / quote flags. -/
structure NCState where
  c : Option Char
  nI : Int
  codeBuf : Str
  data : TreeL
  isParenOpen : Bool
  isQuotesOpen : Bool
deriving Repr

/-- The helper `_update_data` of `nest_curly`: append the stripped buffer
as a node at depth `nI` (a negative `nI` appends at top level, like
Python's empty `range`). -/
def updateData (numLine : Int) (nI : Int) (buf : Str) (data : TreeL) :
    Option TreeL :=
  appendAt data nI.toNat (.mk (some numLine) (stripL buf) .nil)

/-- Result of the inner loop of `nest_curly`'s colon lookahead: either stop
scanning with the final `cp1` (a break or an IndexError) or fall through to
the next line. -/
inductive ClaRes where
  | stop (cp1 : Char)
  | next (cp1 : Char)

/-- Inner loop of the colon lookahead: scan columns `nCp1` of `line2`
against the current line length `curLen`; an out-of-range index is the
Python IndexError, which aborts with the current `cp1`.  The first
argument counts the remaining iterations `curLen - nCp1` (structurally,
so that the definition evaluates in the kernel). -/
def claInner (line2 : Str) (curLen : Nat) : Nat → Nat → Char → ClaRes
  | 0, _, cp1 => .next cp1
  | Nat.succ k, nCp1, cp1 =>
    match line2.get? nCp1 with
    | none => .stop cp1
    | some ch =>
      if !(nCp1 == curLen - 1 && ch != '\\') then .stop ch
      else claInner line2 curLen k (nCp1 + 1) ch

/-- Outer loop of the colon lookahead over the lines from `nLp1` on; the
first loop argument counts the remaining lines `code.length - nLp1`. -/
def claOuter (code : List (Int × Str)) (curLen nC : Nat) : Nat → Nat → Char → Char
  | 0, _, cp1 => cp1
  | Nat.succ k, nLp1, cp1 =>
    match claInner ((code.get? nLp1).getD (0, [])).2 curLen (curLen - (nC + 1)) (nC + 1) cp1 with
    | .stop c2 => c2
    | .next c2 => claOuter code curLen nC k (nLp1 + 1) c2

/-- The colon lookahead of `nest_curly`: the first character after column
`nC` that is not a line-continuation backslash at end of line (starting
value `' '`). -/
def colonLookahead (code : List (Int × Str)) (nL nC curLen : Nat) : Char :=
  claOuter code curLen nC (code.length - nL) nL ' '

/-- One character of `nest_curly`'s scan at index `nC` of `line`;
returns the updated current line number and state (`none` on IndexError
inside `_update_data`). -/
def ncChar (code : List (Int × Str)) (nL : Nat) (line : Str) (nC : Nat)
    (numLine : Int) (st : NCState) : Option (Int × NCState) :=
  let ch := (line.get? nC).getD ' '
  if ch == '\\' && nC == line.length - 1 then
    -- line continuation: skip ahead to the next line
    some (numLine, st)
  else
    let cm1 := st.c
    let st := { st with c := some ch }
    let isEscaped := cm1 == some '\\' && nC != 0
    let st :=
      if ch == '"' && !isEscaped then { st with isQuotesOpen := !st.isQuotesOpen }
      else st
    if !st.isQuotesOpen && ch == ' ' && cm1 == some ' ' then
      -- a double space outside quotes: go to the next character
      some (numLine, st)
    else if !st.isQuotesOpen && (ch == lbrace || ch == rbrace) then
      -- a curly brace: flush the buffer and change the nesting level
      let numLine :=
        if ch == lbrace && nC == 0 && numLine != 0 then numLine - 1 else numLine
      match updateData numLine st.nI st.codeBuf st.data with
      | none => none
      | some d =>
        some (numLine,
          { st with codeBuf := [], data := d,
                    nI := if ch == lbrace then st.nI + 1 else st.nI - 1 })
    else
      let st :=
        if !st.isQuotesOpen && ch == '(' then { st with isParenOpen := true }
        else if !st.isQuotesOpen && ch == ')' then { st with isParenOpen := false }
        else st
      let st := { st with codeBuf := st.codeBuf ++ [ch] }
      let appendData :=
        if !st.isQuotesOpen then
          if ch == ';' && !st.isParenOpen then true
          else if ch == ':' && (accessModifierRaw st.codeBuf || switchRaw st.codeBuf) then
            let cp1 := colonLookahead code nL nC line.length
            !(cm1 == some ':' || cp1 == ':')
          else false
        else false
      if appendData then
        let numLine := if nC == 0 && numLine != 0 then numLine - 1 else numLine
        match updateData numLine st.nI st.codeBuf st.data with
        | none => none
        | some d => some (numLine, { st with codeBuf := [], data := d })
      else
        some (numLine, st)

/-- Scan the characters of one line of `nest_curly` from index `nC` on;
the first loop argument counts the remaining characters
`line.length - nC`. -/
def ncCharsFrom (code : List (Int × Str)) (nL : Nat) (line : Str) :
    Nat → Nat → Int → NCState → Option NCState
  | 0, _, _, st => some st
  | Nat.succ k, nC, numLine, st =>
    match ncChar code nL line nC numLine st with
    | none => none
    | some (numLine2, st2) => ncCharsFrom code nL line k (nC + 1) numLine2 st2

/-- One line of `nest_curly`'s outer loop: macro passthrough for lines
whose first character is `#`, otherwise the character scan. -/
def ncLine (code : List (Int × Str)) (nL : Nat) (st : NCState) : Option NCState :=
  match code.get? nL with
  | none => some st
  | some (numLine, line) =>
    if line = [] then some st
    else if line.head? = some '#' then
      let step1 : Option NCState :=
        if stripL st.codeBuf ≠ [] then
          match updateData (numLine - 1) st.nI st.codeBuf st.data with
          | none => none
          | some d => some { st with codeBuf := [], data := d }
        else some st
      match step1 with
      | none => none
      | some st2 =>
        match updateData numLine st2.nI line st2.data with
        | none => none
        | some d => some { st2 with codeBuf := [], data := d }
    else ncCharsFrom code nL line line.length 0 numLine st

/-- Outer loop of `nest_curly` over the code lines from `nL` on; the first
loop argument counts the remaining lines `code.length - nL`. -/
def ncLines (code : List (Int × Str)) : Nat → Nat → NCState → Option NCState
  | 0, _, st => some st
  | Nat.succ k, nL, st =>
    match ncLine code nL st with
    | none => none
    | some st2 => ncLines code k (nL + 1) st2

/-- The B-form parser `nest_curly`: convert curly-brace code into the
nested tree structure. -/
def nest_curly (code : List (Int × Str)) : Option TreeL :=
  let st0 : NCState :=
    { c := none, nI := 0, codeBuf := [], data := .nil,
      isParenOpen := false, isQuotesOpen := false }
  (ncLines code code.length 0 st0).map (fun st => st.data)

/-!
Renumber maps (the `mv` dictionaries of the restructurers): Python dicts
from line numbers to line numbers or `None`, modelled as association lists
with replace-on-collision.
-/

/-- A renumber map `old_line_number -> new_line_number_or_None`. -/
abbrev Mv := List (Option Int × Option Int)

/-- Dict assignment `mv[k] = v` (replace in place or append). -/
def mvInsert (mv : Mv) (k v : Option Int) : Mv :=
  if mv.any (fun p => p.1 == k) then
    mv.map (fun p => if p.1 == k then (p.1, v) else p)
  else mv ++ [(k, v)]

/-- Dict merge `{**a, **b}` (entries of `b` win). -/
def mvMerge (a b : Mv) : Mv := b.foldl (fun acc p => mvInsert acc p.1 p.2) a

/-- Dict lookup `mv[k]`, distinguishing a missing key from a `None` value. -/
def mvLookup (mv : Mv) (k : Option Int) : Option (Option Int) :=
  (mv.find? (fun p => p.1 == k)).map (fun p => p.2)

/-!
Tree restructurers.
-/

/-- `add_colon`: append `:` to every node that has children, except
access-modifier and switch-label nodes; an empty-text block node loses its
line number. -/
def add_colon : TreeL → TreeL
  | .nil => .nil
  | .cons (.mk l tx ch) rest =>
    let p : Option Int × Str :=
      if !ch.isEmpty then
        if tx ≠ [] then
          if !(accessModifier tx || switchLabel tx) then (l, tx ++ [':']) else (l, tx)
        else (none, tx ++ [':'])
      else (l, tx)
    .cons (.mk p.1 p.2 (add_colon ch)) (add_colon rest)

/-- Matcher `_pattern_match` of the special-indent passes: an access
modifier or a switch label. -/
def patternMatchLab (s : Str) : Bool := accessModifier s || switchLabel s

/-- `rem_special_indent`: splice the children of access-modifier and
switch-label blocks back to sibling position, leaving the label childless. -/
def rem_special_indent : TreeL → TreeL
  | .nil => .nil
  | .cons (.mk l tx ch) rest =>
    if !ch.isEmpty && patternMatchLab tx then
      .cons (.mk l tx .nil) (rem_special_indent ch ++ rem_special_indent rest)
    else
      .cons (.mk l tx (rem_special_indent ch)) (rem_special_indent rest)

/-- Loop of `add_special_indent` with the `isIndented` flag and the output
accumulator (a following non-label node is appended to the children of the
last output node); the recursive top-level call `add_special_indent ch` of
the source is written out as `asiGo ch false .nil`. -/
def asiGo : TreeL → Bool → TreeL → TreeL
  | .nil, _, out => out
  | .cons (.mk l tx ch) rest, isInd, out =>
    if patternMatchLab tx then
      asiGo rest true (out ++ TreeL.cons (.mk l tx (asiGo ch false .nil)) .nil)
    else if isInd then
      asiGo rest true
        (TreeL.modLast (fun u =>
          .mk u.ln u.tx (u.ch ++ TreeL.cons (.mk l tx (asiGo ch false .nil)) .nil)) out)
    else
      asiGo rest false (out ++ TreeL.cons (.mk l tx (asiGo ch false .nil)) .nil)

/-- `add_special_indent`: re-parent the siblings following an
access-modifier or switch-label node as its children. -/
def add_special_indent (code : TreeL) : TreeL := asiGo code false .nil

/-- `add_semicolon`: append `;` to every non-macro leaf with non-empty
text; do not descend into blocks whose header matches `re_enum`. -/
def add_semicolon : TreeL → TreeL
  | .nil => .nil
  | .cons (.mk l tx ch) rest =>
    let b : Tree :=
      if !ch.isEmpty then
        if !reEnum tx then .mk l tx (add_semicolon ch) else .mk l tx ch
      else if tx ≠ [] then
        if !reMacro tx then .mk l (tx ++ [';']) ch else .mk l tx ch
      else .mk l tx ch
    .cons b (add_semicolon rest)

/-- `rem_colon`: strip a trailing `:` from any node that is not an access
modifier, switch label or macro; a stripped node with no children receives
a single empty placeholder child. -/
def rem_colon : TreeL → TreeL
  | .nil => .nil
  | .cons (.mk l tx ch) rest =>
    if tx ≠ [] ∧ !(accessModifier tx || switchLabel tx || tx.head? == some '#') ∧
        tx.getLast? = some ':' then
      if ch.isEmpty then
        -- the source recurses into the freshly inserted placeholder
        -- `[[None, "", []]]`; that recursion maps the placeholder to itself
        .cons (.mk l tx.dropLast (TreeL.cons (Tree.mk none [] .nil) .nil)) (rem_colon rest)
      else
        .cons (.mk l tx.dropLast (rem_colon ch)) (rem_colon rest)
    else
      .cons (.mk l tx (rem_colon ch)) (rem_colon rest)

/-- `rem_semicolon`: strip a single trailing `;` from any leaf. -/
def rem_semicolon : TreeL → TreeL
  | .nil => .nil
  | .cons (.mk l tx ch) rest =>
    let tx2 := if !tx.isEmpty && tx.getLast? == some ';' && ch.isEmpty then tx.dropLast else tx
    .cons (.mk l tx2 (rem_semicolon ch)) (rem_semicolon rest)

/-- Header rebuild of `to_indented_aliases`' helper `_f`: fold the
following sibling's text (its last character dropped) into the class-like
header as an alias list, keeping any `: parents` tail. -/
def tiaNewText (tx0 tx1 : Str) : Str :=
  let parts := splitOnChar tx0 ':'
  let parr := if parts.length = 2 then ':' :: ' ' :: stripL (parts.getD 1 []) else []
  let child := parts.headD []
  let aliases := if tx1.dropLast ≠ [] then ',' :: ' ' :: tx1.dropLast else []
  child ++ aliases ++ parr

/-- `to_indented_aliases`: join a class-like header node with its
immediately following sibling, recording the join in the renumber map. -/
def to_indented_aliases : TreeL → TreeL × Mv
  | .nil => (.nil, [])
  | .cons (.mk l tx ch) .nil =>
    let p := to_indented_aliases ch
    (.cons (.mk l tx p.1) .nil, mvMerge [] p.2)
  | .cons (.mk l0 tx0 ch0) (.cons (.mk l1 tx1 ch1) rest) =>
    if classCurly tx0 then
      let mv1 := mvInsert [] l1 l0
      let p := to_indented_aliases ch0
      let q := to_indented_aliases rest
      (.cons (.mk l0 (tiaNewText tx0 tx1) p.1) q.1, mvMerge (mvMerge mv1 p.2) q.2)
    else
      let p := to_indented_aliases ch0
      let q := to_indented_aliases (.cons (.mk l1 tx1 ch1) rest)
      (.cons (.mk l0 tx0 p.1) q.1, mvMerge p.2 q.2)

/-- `to_indented_do_while`: join a `do` node with an immediately following
`while(...);` sibling into `do while(...)`. -/
def to_indented_do_while : TreeL → TreeL × Mv
  | .nil => (.nil, [])
  | .cons (.mk l tx ch) .nil =>
    let p := to_indented_do_while ch
    (.cons (.mk l tx p.1) .nil, mvMerge [] p.2)
  | .cons (.mk l0 tx0 ch0) (.cons (.mk l1 tx1 ch1) rest) =>
    match whileSemi tx1 with
    | some g1 =>
      if tx0 = "do".data then
        let mv1 := mvInsert [] l1 l0
        let p := to_indented_do_while ch0
        let q := to_indented_do_while rest
        (.cons (.mk l0 (tx0 ++ ' ' :: g1) p.1) q.1, mvMerge (mvMerge mv1 p.2) q.2)
      else
        let p := to_indented_do_while ch0
        let q := to_indented_do_while (.cons (.mk l1 tx1 ch1) rest)
        (.cons (.mk l0 tx0 p.1) q.1, mvMerge p.2 q.2)
    | none =>
      let p := to_indented_do_while ch0
      let q := to_indented_do_while (.cons (.mk l1 tx1 ch1) rest)
      (.cons (.mk l0 tx0 p.1) q.1, mvMerge p.2 q.2)

/-- Header split of `to_curly_aliases`' helper `_f`: returns the bare
header (with any `: parents` tail) and the trailing alias text (`";"` when
the class-like pattern matches but carries no aliases, `""` otherwise). -/
def tcaHeader (tx : Str) : Str × Str :=
  if classIndented tx then
    let cap := splitOnChar tx ':'
    let childAliases := splitOnCommaSpace (cap.headD [])
    let cp0 := childAliases.headD []
    let cp := if cap.length = 2 then cp0 ++ ':' :: ' ' :: stripL (cap.getD 1 []) else cp0
    let al :=
      if childAliases.length ≥ 2 then joinCommaSpace (childAliases.tail.map stripL) ++ [';']
      else [';']
    (cp, al)
  else (tx, [])

/-- `to_curly_aliases`: split aliases off a class-like header into a
trailing sibling leaf `aliases;` (or a bare `;`), recording the split line
as `None` in the renumber map. -/
def to_curly_aliases : TreeL → TreeL × Mv
  | .nil => (.nil, [])
  | .cons (.mk l tx ch) rest =>
    let (cp, al) := tcaHeader tx
    let p := to_curly_aliases ch
    let q := to_curly_aliases rest
    let mvHere := if al ≠ [] then mvInsert (mvMerge [] p.2) l none else mvMerge [] p.2
    (.cons (.mk l cp p.1)
      ((if al ≠ [] then TreeL.cons (.mk l al .nil) .nil else .nil) ++ q.1),
     mvMerge mvHere q.2)

/-- `to_curly_do_while`: split a `do while(...)` node into a `do` block and
a trailing `while(...);` leaf, recording the split line as `None`. -/
def to_curly_do_while : TreeL → TreeL × Mv
  | .nil => (.nil, [])
  | .cons (.mk l tx ch) rest =>
    let (top, bottom) :=
      match doWhileMatch tx with
      | some g => (g.1, g.2 ++ [';'])
      | none => (tx, [])
    let p := to_curly_do_while ch
    let q := to_curly_do_while rest
    let mvHere := if bottom ≠ [] then mvInsert (mvMerge [] p.2) l none else mvMerge [] p.2
    (.cons (.mk l top p.1)
      ((if bottom ≠ [] then TreeL.cons (.mk l bottom .nil) .nil else .nil) ++ q.1),
     mvMerge mvHere q.2)

/-!
Emitters.
-/

/-- A line of emitted code before comment merging:
`[line_number, white_space, code]`. -/
structure ERow where
  ln : Option Int
  ws : Str
  tx : Str
deriving Repr

/-- The I-form emitter `indent`: render the tree with `N*IND_AMT` leading
spaces per level. -/
def indent : TreeL → Nat → List ERow
  | .nil, _ => []
  | .cons (.mk l tx ch) rest, n =>
    ⟨l, List.replicate (n * IND_AMT) ' ', tx⟩ :: (indent ch (n + 1) ++ indent rest n)

/-- The B-form emitter `curlify`: a block introducer gets `" {"` appended
and a synthesized `}` line (with no line number) closes it. -/
def curlify : TreeL → Nat → List ERow
  | .nil, _ => []
  | .cons (.mk l tx ch) rest, n =>
    if !ch.isEmpty then
      ⟨l, List.replicate (n * IND_AMT) ' ', tx ++ [' ', lbrace]⟩ ::
        (curlify ch (n + 1) ++
          (⟨none, List.replicate (n * IND_AMT) ' ', [rbrace]⟩ :: curlify rest n))
    else
      ⟨l, List.replicate (n * IND_AMT) ' ', tx⟩ :: curlify rest n

/-!
Comment merger (`merge_comments`).  Keys are Python numbers
`line + k/1024`; they are modelled exactly as integers scaled by 1024.
-/

/-- Membership test of an integer-keyed dict. -/
def dAny (d : List (Int × α)) (k : Int) : Bool := d.any (fun p => p.1 == k)

/-- Dict assignment `d[k] = v` (replace in place or append). -/
def dInsert (d : List (Int × α)) (k : Int) (v : α) : List (Int × α) :=
  if dAny d k then d.map (fun p => if p.1 == k then (p.1, v) else p)
  else d ++ [(k, v)]

/-- Dict lookup `d[k]`. -/
def dLookup (d : List (Int × α)) (k : Int) : Option α :=
  (d.find? (fun p => p.1 == k)).map (fun p => p.2)

/-- Build the code dict of `merge_comments`: a duplicate or absent line
number gets the key `last_key + 1/1024` (scaled: `lastKey + 1`); the
initial `last_key` is `-1` (scaled: `-1024`). -/
def buildCodeDict : List ERow → Int → List (Int × (Str × Str)) → List (Int × (Str × Str))
  | [], _, d => d
  | r :: rs, lastKey, d =>
    let k :=
      match r.ln with
      | none => lastKey + 1
      | some v => if dAny d (1024 * v) then lastKey + 1 else 1024 * v
    buildCodeDict rs k (dInsert d k (r.ws, r.tx))

/-- Renumbering of a comment key through the renumber map `ch`: a missing
key (KeyError) or a falsy value (`None` or `0`) keeps the original line. -/
def renKey (ch : Mv) (k : Int) : Int :=
  match mvLookup ch (some k) with
  | none => k
  | some none => k
  | some (some v) => if v = 0 then k else v

/-- Build a comment dict keyed by the renumbered (scaled) line numbers;
collisions silently replace the earlier entry, as in a Python dict. -/
def buildComDict (ch : Mv) (coms : List (Int × α)) : List (Int × α) :=
  coms.foldl (fun d p => dInsert d (1024 * renKey ch p.1) p.2) []

/-- Insertion into a sorted list of keys. -/
def isortInsert (x : Int) : List Int → List Int
  | [] => [x]
  | y :: rest => if x ≤ y then x :: y :: rest else y :: isortInsert x rest

/-- Ascending sort of a key list (Python `sorted`). -/
def isort (l : List Int) : List Int := l.foldr isortInsert []

/-- A merged line `[white_space, code, block_comment, line_comment]` where
the block comment is still rolled up as a list of lines. -/
structure MRow where
  ws : Str
  tx : Str
  bc : List Str
  lc : Str
deriving Repr

/-- Bottom-up indentation propagation of `merge_comments`: a comment-only
line receives the indentation of the next code line below it. -/
def propagateWs (rows : List MRow) : List MRow :=
  (rows.foldr (fun r acc =>
    if r.tx = [] then ({ r with ws := acc.2 } :: acc.1, acc.2)
    else (r :: acc.1, r.ws)) ([], [])).1

/-- The comment merger `merge_comments`: recombine emitted code with the
block and line comments via the renumber map `ch`, iterating the sorted
union of all keys and skipping all-blank rows. -/
def merge_comments (code : List ERow) (bcoms : List (Int × List Str))
    (coms : List (Int × Str)) (ch : Mv) : List MRow :=
  let codeD := buildCodeDict code (-1024) []
  let bcomD := buildComDict ch bcoms
  let comD := buildComDict ch coms
  let allKeys := isort ((codeD.map (fun p => p.1) ++ bcomD.map (fun p => p.1) ++
    comD.map (fun p => p.1)).eraseDups)
  let rows := allKeys.filterMap (fun k =>
    let c := (dLookup codeD k).getD ([], [])
    let b := (dLookup bcomD k).getD []
    let l := (dLookup comD k).getD []
    if c.1 = [] ∧ c.2 = [] ∧ b = [] ∧ l = [] then none
    else some (⟨c.1, c.2, b, l⟩ : MRow))
  propagateWs rows

/-!
Cosmetic layer (`block_comments_expand` and `cosmetic_lines`).
-/

/-- A fully unrolled output line
`[white_space, code, block_comment_line, line_comment]`. -/
structure CRow where
  ws : Str
  tx : Str
  bc : Str
  lc : Str
deriving Repr, DecidableEq

/-- `block_comments_expand`: the first line of a rolled-up block comment
stays on its anchor row; each further line becomes a fresh row of its
own. -/
def block_comments_expand : List MRow → List CRow
  | [] => []
  | r :: rest =>
    match r.bc with
    | [] => ⟨r.ws, r.tx, [], r.lc⟩ :: block_comments_expand rest
    | b0 :: bs =>
      ⟨r.ws, r.tx, b0, r.lc⟩ ::
        (bs.map (fun b => (⟨r.ws, [], b, []⟩ : CRow)) ++ block_comments_expand rest)

/-- Blank-row test of `cosmetic_lines`' input filter
(`sum(map(bool, map(str.strip, row))) == 0`). -/
def rowBlank (r : CRow) : Bool :=
  stripL r.ws == [] && stripL r.tx == [] && stripL r.bc == [] && stripL r.lc == []

/-- One record of the alias-drag loop of `cosmetic_lines`.  The state is
(output rows, `prev_char`); `prev_char` starts out unassigned (`none`), and
evaluating it while unassigned is Python's UnboundLocalError, modelled as
`none`. -/
def dragStep (acc : List CRow × Option Char) (r : CRow) : Option (List CRow × Option Char) :=
  let pcNew : Option Char := some ((' ' :: r.tx).getLastD ' ')
  if aliasSearch r.tx then
    match acc.2 with
    | none => none
    | some p =>
      if p == rbrace then
        match acc.1 with
        | [] => none
        | _ =>
          some (modLast (fun u =>
            ⟨u.ws, u.tx ++ (if r.tx.length > 1 then [' '] else []) ++ r.tx,
              u.bc ++ r.bc, u.lc ++ r.lc⟩) acc.1, pcNew)
      else some (acc.1 ++ [r], pcNew)
  else some (acc.1 ++ [r], pcNew)

/-- The alias-drag loop of `cosmetic_lines` from a given state. -/
def dragGo (st : List CRow × Option Char) : List CRow → Option (List CRow × Option Char)
  | [] => some st
  | r :: rs =>
    match dragStep st r with
    | none => none
    | some st2 => dragGo st2 rs

/-- The full alias-drag phase of `cosmetic_lines`, starting with no output
rows and an unassigned `prev_char`. -/
def dragPhase (rows : List CRow) : Option (List CRow × Option Char) :=
  dragGo ([], none) rows

/-- Row labels of `cosmetic_lines`' annotation pass. -/
inductive Lab where
  | lcode
  | lclose
  | lmac
  | lcom
deriving Repr, DecidableEq

/-- Label a row: macro, closing brace, code, or comment (rows with neither
code nor comments stay unlabelled). -/
def labelOf (r : CRow) : Option Lab :=
  if r.tx ≠ [] then
    if r.tx.head? = some '#' then some .lmac
    else if r.tx.head? = some rbrace then some .lclose
    else some .lcode
  else if r.bc ≠ [] ∨ r.lc ≠ [] then some .lcom
  else none

/-- Decide whether a blank line is inserted after row `n`, looking one and
two rows ahead (an IndexError on lookahead yields `none` for both the
label and the depth). -/
def insertAfter (labs : List (Option Lab)) (deps : List Nat) (n : Nat) : Bool :=
  let l0 := (labs.get? n).getD none
  let i0 := (deps.get? n).getD 0
  let l1 : Option Lab := (labs.get? (n + 1)).getD none
  let i1 : Option Nat := deps.get? (n + 1)
  let l2 : Option Lab := (labs.get? (n + 2)).getD none
  let i2 : Option Nat := deps.get? (n + 2)
  let transition :=
    (l0 == some .lcode && l1 == some .lcom) ||
    (l0 == some .lclose && l1 == some .lcom) ||
    (l0 == some .lclose && l1 == some .lcode) ||
    (l0 == some .lmac && l1 == some .lcom) ||
    (l0 == some .lmac && l1 == some .lcode) ||
    (l0 == some .lcom && l1 == some .lmac) ||
    (l0 == some .lcom && l1 == some .lcode) ||
    (l0 == some .lcode && l1 == some .lmac)
  let consecutiveCode :=
    (l0 == some .lcode || l0 == some .lclose) && l1 == some .lcode &&
    (match i1 with
     | some v1 => decide (i0 > v1) ||
        (match i2 with
         | some v2 => decide (v2 > v1)
         | none => false)
     | none => false)
  let atTop := i1 == some 0
  (atTop && (transition || consecutiveCode)) || (i1 == none && i2 == none)

/-- The cosmetic pass `cosmetic_lines`: drop blank rows, drag alias rows
back behind a closing brace, and insert blank separator lines; `none`
models the UnboundLocalError on `prev_char`. -/
def cosmetic_lines (code0 : List CRow) : Option (List CRow) := do
  let code1 := code0.filter (fun r => !rowBlank r)
  let (code, _) ← dragPhase code1
  let labs := code.map labelOf
  let deps := code.map (fun r => r.ws.length)
  let out := (List.range code.length).flatMap (fun n =>
    match code.get? n with
    | none => []
    | some r => if insertAfter labs deps n then [r, ⟨[], [], [], []⟩] else [r])
  pure out

/-- `code_join`: render the rows, separating code from a following comment
and a block comment from a following line comment by single spaces, and
join everything with newlines. -/
def code_join (code : List CRow) : Str :=
  joinNL (code.map (fun r =>
    r.ws ++ r.tx ++
    (if r.tx ≠ [] ∧ (r.bc ≠ [] ∨ r.lc ≠ []) then [' '] else []) ++
    r.bc ++
    (if r.bc ≠ [] ∧ r.lc ≠ [] then [' '] else []) ++
    r.lc))

/-!
The conversion pipeline (`convert`).
-/

/-- The core conversion `convert` on character lists: split the raw source,
detect the direction when none is forced, run the matching restructuring
pipeline, merge the comments back and beautify.  `none` models an uncaught
Python exception. -/
def convertL (raw : Str) (makeIndented : Option Bool) : Option Str := do
  let (code, bcoms, coms) := parse_raw_code (splitlinesL raw)
  let mi := match makeIndented with
    | none => isCurly code
    | some b => b
  let (c8, mv1, mv2) ←
    if mi then do
      let c2 ← nest_curly code
      let (c3, mv1) := to_indented_aliases c2
      let (c4, mv2) := to_indented_do_while c3
      let c5 := add_special_indent c4
      let c6 := rem_semicolon c5
      let c7 := add_colon c6
      pure (indent c7 0, mv1, mv2)
    else do
      let c2 ← nest_indented code
      let c3 := rem_colon c2
      let c4 := add_semicolon c3
      let c5 := rem_special_indent c4
      let (c6, mv2) := to_curly_do_while c5
      let (c7, mv1) := to_curly_aliases c6
      pure (curlify c7 0, mv1, mv2)
  let mv := mvMerge mv1 mv2
  let c9 := merge_comments c8 bcoms coms mv
  let c10 := block_comments_expand c9
  let c11 ← cosmetic_lines c10
  pure (code_join c11)

/-- The library entry point `convert` on strings. -/
def convert (raw : String) (makeIndented : Option Bool) : Option String :=
  (convertL raw.data makeIndented).map String.mk

/-- The multiset (here: in-order list) of comment texts of a source string,
extracted by the program's own lexical splitter: each block comment
contributes its lines joined by newlines, each line comment its text. -/
def commentTexts (s : String) : List String :=
  let r := parse_raw_code (splitlinesL s.data)
  r.2.1.map (fun b => String.mk (joinNL b.2)) ++ r.2.2.map (fun c => String.mk c.2)

/-!
Helper lemmas.
-/

theorem TreeL.append_eq (a b : TreeL) : TreeL.append a b = a ++ b := rfl

theorem TreeL.nil_append (b : TreeL) : TreeL.nil ++ b = b := rfl

theorem TreeL.cons_append (t : Tree) (ts b : TreeL) :
    TreeL.cons t ts ++ b = TreeL.cons t (ts ++ b) := rfl

theorem icStep_eq (p : Nat × Nat × Nat) (x : Int × Str) :
    icStep p x =
      (p.1 + (if endsSemi x then 1 else 0), p.2.1 + (if endsColon x then 1 else 0),
        p.2.2 + (if !x.2.isEmpty then 1 else 0)) := by
  obtain ⟨a, b, c⟩ := p
  unfold icStep endsSemi endsColon
  by_cases hx : x.2 = []
  · simp [hx]
  · by_cases hs : x.2.getLast? = some ';'
    · simp [hx, hs]
    · by_cases hc : x.2.getLast? = some ':'
      · simp [hx, hs, hc]
      · simp [hx, hs, hc]

theorem icStep_foldl (l : List (Int × Str)) (a b c : Nat) :
    l.foldl icStep (a, b, c) =
      (a + l.countP endsSemi, b + l.countP endsColon,
        c + l.countP (fun p => !p.2.isEmpty)) := by
  induction l generalizing a b c with
  | nil => simp
  | cons x xs ih =>
    rw [List.foldl_cons, icStep_eq, ih]
    simp only [List.countP_cons, Prod.mk.injEq]
    refine ⟨?_, ?_, ?_⟩ <;> split_ifs <;> omega

/-- C5: the direction detector `isCurly` examines at most the first
`min 50000 code.length` entries of the code stream; counting over lines
with non-empty text those whose last character is `;` versus those whose
last character is `:`, it returns B-form (`true`) exactly when the `;`
count strictly exceeds the `:` count, and I-form (`false`) otherwise,
including ties and empty input. -/
theorem isCurly_counts (code : List (Int × Str)) :
    isCurly code = true ↔
      ((code.take (min 50000 code.length)).countP endsColon <
        (code.take (min 50000 code.length)).countP endsSemi) := by
  unfold isCurly
  simp only [icStep_foldl, Nat.zero_add, decide_eq_true_eq]

/-!
Theorems for semicolon insertion (`add_semicolon`).
-/

theorem add_semicolon_append :
    ∀ xs ys : TreeL, add_semicolon (xs ++ ys) = add_semicolon xs ++ add_semicolon ys
  | .nil, _ => rfl
  | .cons (.mk l tx ch) rest, ys => by
    simp only [TreeL.cons_append, add_semicolon, TreeL.append_eq,
      add_semicolon_append rest ys]

/-- C6 counterexample: a leaf whose text already ends in `;` is not left
unchanged — `add_semicolon` appends another `;`, producing `;;`, contrary
to the claim that `;` is appended only to leaves whose text does not
already end in `;` and that such leaves stay unchanged. -/
theorem add_semicolon_cex :
    add_semicolon (TreeL.cons (Tree.mk (some 0) ['x', ';'] .nil) .nil) =
      TreeL.cons (Tree.mk (some 0) ['x', ';', ';'] .nil) .nil := rfl

/-- C6 amended: in I-to-B restructuring, `add_semicolon` appends `;` to
every leaf with non-empty text that is not a macro line matching `^#.*$`,
regardless of whether the text already ends in `;` (so a leaf already
ending in `;` becomes one ending in `;;`); stated here for a leaf in any
top-level position.  Leaves under an `enum`-matching header are untouched
because the recursion skips such blocks. -/
theorem add_semicolon_appends_unconditionally (l : Option Int) (tx : Str)
    (pre suf : TreeL) (h1 : tx ≠ []) (h2 : reMacro tx = false) :
    add_semicolon (pre ++ TreeL.cons (Tree.mk l tx .nil) suf) =
      add_semicolon pre ++
        TreeL.cons (Tree.mk l (tx ++ [';']) .nil) (add_semicolon suf) := by
  rw [add_semicolon_append]
  congr 1
  simp only [add_semicolon, TreeL.isEmpty, Bool.not_true, Bool.false_eq_true, if_false,
    h1, ne_eq, not_false_eq_true, if_true, h2, Bool.not_false, if_pos rfl]

/-- C6 witness: instantiation of the amended semicolon-insertion theorem
at the leaf `int x`. -/
theorem add_semicolon_appends_unconditionally_witness :
    add_semicolon (TreeL.nil ++
        TreeL.cons (Tree.mk (some 0) ['i', 'n', 't', ' ', 'x'] .nil) .nil) =
      add_semicolon .nil ++
        TreeL.cons (Tree.mk (some 0) ['i', 'n', 't', ' ', 'x', ';'] .nil)
          (add_semicolon .nil) :=
  add_semicolon_appends_unconditionally (some 0) ['i', 'n', 't', ' ', 'x'] .nil .nil
    (by decide) (by decide)

/-!
Theorems for the brace parser's line attribution (claim C7).
-/

/-- C7 counterexample: in the input below the `\x7b` on line 1 is the first
non-space character of its line and the line number is known, yet the
flushed node keeps line number 1 instead of inheriting line 0: the source
only decrements when the brace is the character at index 0 of the line. -/
theorem nest_curly_space_brace_cex :
    nest_curly [((0 : Int), "int f()".data), ((1 : Int), [' ', lbrace]), ((2 : Int), [rbrace])] =
      some (TreeL.cons (Tree.mk (some 1) "int f()".data
        (TreeL.cons (Tree.mk (some 2) [] .nil) .nil)) .nil) ∧
    (∀ t rest,
      nest_curly [((0 : Int), "int f()".data), ((1 : Int), [' ', lbrace]), ((2 : Int), [rbrace])] =
        some (TreeL.cons t rest) → t.ln ≠ some 0) := by
  refine ⟨rfl, ?_⟩
  intro t rest h
  have e : nest_curly [((0 : Int), "int f()".data), ((1 : Int), [' ', lbrace]),
      ((2 : Int), [rbrace])] =
      some (TreeL.cons (Tree.mk (some 1) "int f()".data
        (TreeL.cons (Tree.mk (some 2) [] .nil) .nil)) .nil) := rfl
  rw [e] at h
  simp only [Option.some.injEq, TreeL.cons.injEq] at h
  rw [← h.1]
  simp [Tree.ln]

/-- C7 amended: in the B-form parser's character step, a `\x7b` outside a
string flushes the buffer as a node whose line number is the previous
line's number exactly when the `\x7b` sits at character index 0 of its
line and the current line number is non-zero (Python truthiness); in all
other cases — including a `\x7b` preceded only by spaces, or line number
0 — the flushed node keeps the current line number. -/
theorem ncChar_lbrace_attribution (code : List (Int × Str)) (nL : Nat) (line : Str)
    (nC : Nat) (m : Int) (c0 : Option Char) (nI0 : Int) (buf0 : Str) (data0 : TreeL)
    (par0 : Bool) (hc : line.get? nC = some lbrace) :
    ncChar code nL line nC m ⟨c0, nI0, buf0, data0, par0, false⟩ =
      (updateData (if nC = 0 ∧ m ≠ 0 then m - 1 else m) nI0 buf0 data0).map
        (fun d => ((if nC = 0 ∧ m ≠ 0 then m - 1 else m),
          ⟨some lbrace, nI0 + 1, [], d, par0, false⟩)) := by
  unfold ncChar
  rw [hc]
  by_cases h : nC = 0 ∧ m ≠ 0
  · obtain ⟨h0, hm⟩ := h
    subst h0
    simp only [Option.getD_some, lbrace, hm]
    norm_num
    cases hu : updateData (m - 1) nI0 buf0 data0 <;> simp [hu, hm]
  · simp only [Option.getD_some, lbrace]
    norm_num
    cases hu : updateData m nI0 buf0 data0 <;> simp [hu, h]

/-- C7 witness: instantiation of the brace line-attribution theorem at a
line whose first character is `\x7b` with current line number 5: the
flushed node carries line number 4. -/
theorem ncChar_lbrace_attribution_witness :
    ncChar [] 0 [lbrace] 0 5 ⟨none, 0, ['f'], .nil, false, false⟩ =
      some (4, ⟨some lbrace, 1, [],
        TreeL.cons (Tree.mk (some 4) ['f'] .nil) .nil, false, false⟩) :=
  ncChar_lbrace_attribution [] 0 [lbrace] 0 5 none 0 ['f'] .nil false rfl

/-!
Theorems for the cosmetic alias drag (claim C10).
-/

theorem dragGo_append (st : List CRow × Option Char) (xs ys : List CRow) :
    dragGo st (xs ++ ys) =
      match dragGo st xs with
      | none => none
      | some st2 => dragGo st2 ys := by
  induction xs generalizing st with
  | nil => simp [dragGo]
  | cons r rs ih =>
    simp only [List.cons_append, dragGo]
    cases dragStep st r with
    | none => rfl
    | some st2 => exact ih st2

theorem modLast_ne_nil (f : α → α) (l : List α) (h : l ≠ []) : modLast f l ≠ [] := by
  cases l with
  | nil => exact absurd rfl h
  | cons a as => cases as <;> simp [modLast]

theorem dragStep_prev (st : List CRow × Option Char) (r : CRow)
    (res : List CRow × Option Char) (h : dragStep st r = some res) :
    res.2 = some ((' ' :: r.tx).getLastD ' ') := by
  unfold dragStep at h
  repeat' split at h
  all_goals simp_all
  all_goals (rw [← h])

theorem dragStep_preserves_ne (st : List CRow × Option Char) (r : CRow)
    (res : List CRow × Option Char) (h : dragStep st r = some res)
    (hne : st.1 ≠ []) : res.1 ≠ [] := by
  unfold dragStep at h
  repeat' split at h
  all_goals simp_all
  all_goals (rw [← h]; simp [modLast_ne_nil _ _ hne])

theorem dragGo_preserves_ne :
    ∀ (rows : List CRow) (st res : List CRow × Option Char),
      dragGo st rows = some res → st.1 ≠ [] → res.1 ≠ []
  | [], st, res, h, hne => by
    simp only [dragGo, Option.some.injEq] at h
    rw [← h]; exact hne
  | r :: rs, st, res, h, hne => by
    simp only [dragGo] at h
    cases hs : dragStep st r with
    | none => rw [hs] at h; exact absurd h (by simp)
    | some st2 =>
      rw [hs] at h
      exact dragGo_preserves_ne rs st2 res h (dragStep_preserves_ne st r st2 hs hne)

theorem dragGo_start_ne (rows : List CRow) (res : List CRow × Option Char)
    (hrows : rows ≠ []) (h : dragGo ([], none) rows = some res) : res.1 ≠ [] := by
  cases rows with
  | nil => exact absurd rfl hrows
  | cons r rs =>
    simp only [dragGo] at h
    cases hs : dragStep ([], none) r with
    | none => rw [hs] at h; exact absurd h (by simp)
    | some st2 =>
      rw [hs] at h
      refine dragGo_preserves_ne rs st2 res h ?_
      unfold dragStep at hs
      by_cases ha : aliasSearch r.tx
      · rw [if_pos ha] at hs
        exact absurd hs (by simp)
      · rw [if_neg ha] at hs
        simp only [Option.some.injEq] at hs
        rw [← hs]
        simp

/-- C10: in `cosmetic_lines`' alias-drag phase, a record whose code text
matches the bare identifier/alias-list regex (`aliasSearch`), immediately
following a record whose code text ends in `\x7d`, is merged onto the last
accumulated output record: its code is appended, prefixed with one space
unless it is the single character `;`, and its block- and line-comment
fields are carried along; `prev_char` becomes the merged record's last
code character. -/
theorem cosmetic_alias_drag (rs : List CRow) (p r : CRow) (acc : List CRow)
    (pc : Option Char)
    (h1 : dragPhase (rs ++ [p]) = some (acc, pc))
    (h2 : (' ' :: p.tx).getLastD ' ' = rbrace)
    (h3 : aliasSearch r.tx = true) :
    dragPhase (rs ++ [p, r]) =
      some (modLast (fun u =>
          ⟨u.ws, u.tx ++ (if r.tx.length > 1 then [' '] else []) ++ r.tx,
            u.bc ++ r.bc, u.lc ++ r.lc⟩) acc,
        some ((' ' :: r.tx).getLastD ' ')) := by
  have hacc : acc ≠ [] := by
    have := dragGo_start_ne (rs ++ [p]) (acc, pc) (by simp) h1
    exact this
  have hpc : pc = some rbrace := by
    have e := dragGo_append ([], none) rs [p]
    unfold dragPhase at h1
    rw [e] at h1
    cases hg : dragGo ([], none) rs with
    | none => rw [hg] at h1; exact absurd h1 (by simp)
    | some st2 =>
      rw [hg] at h1
      simp only [dragGo] at h1
      cases hs : dragStep st2 p with
      | none => rw [hs] at h1; exact absurd h1 (by simp)
      | some st3 =>
        rw [hs] at h1
        simp only [Option.some.injEq] at h1
        have := dragStep_prev st2 p st3 hs
        rw [h1, h2] at this
        exact this
  have hsplit : rs ++ [p, r] = (rs ++ [p]) ++ [r] := by simp
  rw [hsplit]
  unfold dragPhase
  rw [dragGo_append]
  unfold dragPhase at h1
  rw [h1]
  simp only [dragGo]
  unfold dragStep
  rw [if_pos h3, hpc]
  cases acc with
  | nil => exact absurd rfl hacc
  | cons a as => rfl

/-- C10 witness: instantiation of the alias-drag theorem where the record
`T;` follows a record `\x7d` and is merged to `\x7d T;`. -/
theorem cosmetic_alias_drag_witness :
    dragPhase [⟨[], [rbrace], [], []⟩, ⟨[], ['T', ';'], [], []⟩] =
      some ([⟨[], [rbrace, ' ', 'T', ';'], [], []⟩], some ';') :=
  cosmetic_alias_drag [] ⟨[], [rbrace], [], []⟩ ⟨[], ['T', ';'], [], []⟩
    [⟨[], [rbrace], [], []⟩] (some rbrace) rfl rfl rfl

/-!
End-to-end evaluations of the conversion pipeline (claims C1, C2, C3, C4,
C8, C9).
-/

/-- C1: the core conversion is not total.  On the input `x` (auto
direction: no `;` and no `:`, so the I-to-B pipeline runs), the first
cosmetic record's code is `x;`, which matches the alias regex while
`prev_char` is still unassigned — Python raises UnboundLocalError, modelled
as `none`; the second conjunct isolates the failure inside
`cosmetic_lines`. -/
theorem convert_raises_unbound_prev_char :
    convert "x" none = none ∧
    cosmetic_lines [⟨[], ['x', ';'], [], []⟩] = none := ⟨rfl, rfl⟩

/-- C2: comment preservation fails.  In the input below, the alias join
maps line 2 onto line 1; both lines carry a line comment, the two comments
collide on one dictionary key in `merge_comments`, and `// c1` is silently
dropped from the output. -/
theorem convert_drops_comment :
    convert "int q;\ntypedef struct S \x7b int a; \x7d // c1\nT, U; // c2" none =
      some "int q\n\ntypedef struct S, T, U: // c2\n    int a\n" ∧
    commentTexts "int q;\ntypedef struct S \x7b int a; \x7d // c1\nT, U; // c2" =
      ["// c1", "// c2"] ∧
    commentTexts "int q\n\ntypedef struct S, T, U: // c2\n    int a\n" =
      ["// c2"] := ⟨rfl, rfl, rfl⟩

/-- C3: macro preservation fails.  Converting `enum\n#define X 1` to
I-form, `to_indented_aliases` folds the macro line into the preceding
`enum` header as an alias (dropping the macro's last character); no line of
the output begins with `#`. -/
theorem convert_mangles_macro :
    convert "enum\n#define X 1" (some true) = some "enum, #define X \n" ∧
    (splitlinesL "enum, #define X \n".data).all
      (fun l => !(l.head? == some '#')) = true := ⟨rfl, rfl⟩

/-- C4 counterexample: re-converting the output with the direction matching
its form does not return it unchanged.  `convert "int x;" auto` yields the
I-form `int x\n`; converting that with the to-indent direction parses it as
B-form, the unterminated buffer is discarded, and the result is the empty
string. -/
theorem convert_reconvert_cex :
    convert "int x;" none = some "int x\n" ∧
    convert "int x\n" (some true) = some "" ∧
    convert "int x\n" (some true) ≠ convert "int x;" none := by
  refine ⟨rfl, rfl, ?_⟩
  intro h
  have h1 : convert "int x\n" (some true) = some "" := rfl
  have h2 : convert "int x;" none = some "int x\n" := rfl
  rw [h1, h2] at h
  simp at h

/-- C4 amended: `convert` is a pure function (deterministic by
construction), and the re-conversion equation holds only for degenerate
fixed points such as comment-only inputs (and the empty input, claim C9):
`// note` converts to `// note\n`, which re-converts to itself in both
directions. -/
theorem convert_comment_fixed_point :
    convert "// note" none = some "// note\n" ∧
    convert "// note\n" (some false) = some "// note\n" ∧
    convert "// note\n" (some true) = some "// note\n" := ⟨rfl, rfl, rfl⟩

/-- C8: the access-modifier scenario.  Converting
`class A \x7b public: int x; private: int y; \x7d;` to I-form produces
exactly the claimed output: members re-nested one level under their access
modifier and the class's trailing `;` removed; the non-blank output lines
are listed in order by the second conjunct. -/
theorem convert_access_modifier_scenario :
    convert "class A \x7b public: int x; private: int y; \x7d;" (some true) =
      some "class A:\n    public:\n        int x\n    private:\n        int y\n" ∧
    (convert "class A \x7b public: int x; private: int y; \x7d;" (some true)).map
        (fun s => (splitlinesL s.data).filter (fun l => !l.isEmpty)) =
      some ["class A:".data, "    public:".data, "        int x".data,
        "    private:".data, "        int y".data] := ⟨rfl, rfl⟩

/-- C9 counterexample: an input containing no code characters need not
convert to the empty string — a comment-only input keeps its comment (plus
the final cosmetic blank line). -/
theorem convert_comment_only_cex :
    convert "// hi" none = some "// hi\n" ∧
    convert "// hi" none ≠ some "" := by
  refine ⟨rfl, ?_⟩
  intro h
  have h1 : convert "// hi" none = some "// hi\n" := rfl
  rw [h1] at h
  simp at h

/-- C9 amended: for the empty input string, `convert` returns the empty
string in every direction (auto, force-brace, force-indent). -/
theorem convert_empty_string :
    convert "" none = some "" ∧ convert "" (some true) = some "" ∧
    convert "" (some false) = some "" := ⟨rfl, rfl, rfl⟩

end Thinc
